import Mathlib

/-!
# A shallow embedding of the `flo` lobby state store

This file embeds `crates/lobby/src/state.rs` of the `flo` repository and
proves properties of the embedded operations.

Modelling choices:

* The three `HashMap`s of `StorageState` are modelled as association lists
  (`List (Int × α)`) with key-based `alookup`/`ainsert`/`aerase`/`amodify`,
  mirroring `HashMap::get`, `HashMap::insert`, `HashMap::remove` and
  `Entry::and_modify`.
* Player and game ids are `i32` in the source; no arithmetic is ever
  performed on them, so they are modelled as `Int`.
* The cached player counts are `usize`.  The unchecked `*v = *v - 1` in
  `remove_player` and `*v = *v + 1` in `add_player` wrap modulo `2^64` in
  release-mode Rust; `usizeWrapSub1` and `usizeWrapAdd1` model exactly
  that wrapping arithmetic.
* The async locks serialize all access to a given record; the sequential
  trace semantics below (`Op`, `step`, `run`) therefore models any
  single interleaving of complete lease sessions.
-/

namespace Flo

/-- Key-based lookup in an association list, mirroring `HashMap::get`. -/
def alookup {α : Type} (k : Int) : List (Int × α) → Option α
  | [] => none
  | kv :: rest => if k = kv.1 then some kv.2 else alookup k rest

/-- Key-based insert-or-replace, mirroring `HashMap::insert`. -/
def ainsert {α : Type} (k : Int) (v : α) : List (Int × α) → List (Int × α)
  | [] => [(k, v)]
  | kv :: rest => if k = kv.1 then (k, v) :: rest else kv :: ainsert k v rest

/-- Key removal, mirroring `HashMap::remove`. -/
def aerase {α : Type} (k : Int) (m : List (Int × α)) : List (Int × α) :=
  m.filter (fun kv => kv.1 != k)

/-- Update of an existing entry, mirroring `Entry::and_modify`: a no-op
when the key is absent. -/
def amodify {α : Type} (k : Int) (f : α → α) : List (Int × α) → List (Int × α)
  | [] => []
  | kv :: rest => if k = kv.1 then (k, f kv.2) :: rest else kv :: amodify k f rest

theorem alookup_ainsert_self {α : Type} (k : Int) (v : α) (m : List (Int × α)) :
    alookup k (ainsert k v m) = some v := by
  induction m with
  | nil => simp [ainsert, alookup]
  | cons kv rest ih =>
    by_cases h : k = kv.1 <;> simp [ainsert, alookup, h, ih]

theorem alookup_ainsert_ne {α : Type} {k k' : Int} (h : k ≠ k') (v : α)
    (m : List (Int × α)) : alookup k (ainsert k' v m) = alookup k m := by
  induction m with
  | nil => simp [ainsert, alookup, h]
  | cons kv rest ih =>
    by_cases hk : k' = kv.1
    · subst hk
      simp [ainsert, alookup, h, ih]
    · by_cases hk2 : k = kv.1 <;> simp [ainsert, alookup, hk, hk2, ih]

theorem alookup_amodify_self {α : Type} (k : Int) (f : α → α)
    (m : List (Int × α)) : alookup k (amodify k f m) = (alookup k m).map f := by
  induction m with
  | nil => simp [amodify, alookup]
  | cons kv rest ih =>
    by_cases h : k = kv.1 <;> simp [amodify, alookup, h, ih]

theorem alookup_amodify_ne {α : Type} {k k' : Int} (h : k ≠ k') (f : α → α)
    (m : List (Int × α)) : alookup k (amodify k' f m) = alookup k m := by
  induction m with
  | nil => simp [amodify, alookup]
  | cons kv rest ih =>
    by_cases hk : k' = kv.1
    · subst hk
      simp [amodify, alookup, h, ih]
    · by_cases hk2 : k = kv.1 <;> simp [amodify, alookup, hk, hk2, ih]

theorem alookup_aerase_self {α : Type} (k : Int) (m : List (Int × α)) :
    alookup k (aerase k m) = none := by
  induction m with
  | nil => simp [aerase, alookup]
  | cons kv rest ih =>
    by_cases h : kv.1 = k
    · simpa [aerase, List.filter_cons, h] using ih
    · have h2 : k ≠ kv.1 := fun hk => h hk.symm
      simpa [aerase, List.filter_cons, bne_iff_ne, h, alookup, h2] using ih

theorem alookup_aerase_ne {α : Type} {k k' : Int} (h : k ≠ k')
    (m : List (Int × α)) : alookup k (aerase k' m) = alookup k m := by
  induction m with
  | nil => simp [aerase, alookup]
  | cons kv rest ih =>
    by_cases hk : kv.1 = k'
    · have h2 : k ≠ kv.1 := fun he => h (he.trans hk)
      simpa [aerase, List.filter_cons, hk, h, alookup, h2] using ih
    · by_cases hk2 : k = kv.1
      · simp [aerase, List.filter_cons, bne_iff_ne, hk, alookup, hk2]
      · simpa [aerase, List.filter_cons, bne_iff_ne, hk, alookup, hk2] using ih

/-- `NotificationSender` is an outbound channel handle; the store only
stores it and never invokes it, so it is modelled as an information-free
token. -/
abbrev NotificationSender := Unit

/-- `GameState` from `state.rs`: the membership list and the closed flag. -/
structure GameState where
  players : List Int
  closed : Bool
deriving DecidableEq, Repr

/-- `GameState::new`: copies the given slice, `closed = false`. -/
def GameState.new (players : List Int) : GameState :=
  { players := players, closed := false }

/-- `PlayerState` from `state.rs`. -/
structure PlayerState where
  game_id : Option Int
  sender : Option NotificationSender
deriving DecidableEq, Repr

/-- `PlayerState::default()`: no game, no sender. -/
def PlayerState.default : PlayerState :=
  { game_id := none, sender := none }

/-- `StorageState` from `state.rs`: the coarse index. -/
structure StorageState where
  players : List (Int × PlayerState)
  games : List (Int × GameState)
  game_num_players : List (Int × Nat)
deriving DecidableEq, Repr

/-- `2^64`, the modulus of `usize` on the 64-bit targets the server runs on. -/
def USIZE : Nat := 18446744073709551616

/-- The unchecked `usize` decrement `*v = *v - 1` of `remove_player`,
which wraps modulo `2^64` when `v = 0` (release-mode Rust semantics). -/
def usizeWrapSub1 (v : Nat) : Nat :=
  if v = 0 then USIZE - 1 else v - 1

/-- The unchecked `usize` increment `*v = *v + 1` of `add_player`, which
wraps modulo `2^64` when `v = 2^64 - 1` (release-mode Rust semantics). -/
def usizeWrapAdd1 (v : Nat) : Nat :=
  (v + 1) % USIZE

/-- The `num as i32` cast performed by `fetch_num_players`. -/
def usizeToI32 (n : Nat) : Int :=
  if n % 4294967296 < 2147483648 then ((n % 4294967296 : Nat) : Int)
  else ((n % 4294967296 : Nat) : Int) - 4294967296

/-- One row of the seed data handed to `StorageState::new` (the fields of
`GameStateFromDb` the constructor reads). -/
structure GameStateFromDb where
  id : Int
  players : List Int
deriving DecidableEq, Repr

/-- The inner loop of `StorageState::new`: for every player id of a seed
item, insert a `PlayerState` pre-attached to that item's game. -/
def insertSeedPlayers (gid : Int) (ps : List Int)
    (m : List (Int × PlayerState)) : List (Int × PlayerState) :=
  ps.foldl (fun acc pid => ainsert pid { game_id := some gid, sender := none } acc) m

/-- The body of the `for item in data` loop of `StorageState::new`. -/
def seedOne (s : StorageState) (item : GameStateFromDb) : StorageState :=
  { players := insertSeedPlayers item.id item.players s.players,
    game_num_players := ainsert item.id item.players.length s.game_num_players,
    games := ainsert item.id { players := item.players, closed := false } s.games }

/-- `StorageState::new`: bulk initialization from the seed data. -/
def StorageState.new (data : List GameStateFromDb) : StorageState :=
  data.foldl seedOne { players := [], games := [], game_num_players := [] }

/-- `StorageHandle::register_game`: unconditionally insert the count and a
fresh game record (the `contains_key` check only emits a log warning). -/
def register_game (s : StorageState) (id : Int) (players : List Int) :
    StorageState :=
  { s with
    game_num_players := ainsert id players.length s.game_num_players,
    games := ainsert id (GameState.new players) s.games }

/-- `StorageHandle::lock_player_state`: find-or-create the player entry and
return the guard's view of the record.  Total: never fails. -/
def lock_player_state (s : StorageState) (id : Int) :
    StorageState × PlayerState :=
  match alookup id s.players with
  | some st => (s, st)
  | none =>
    ({ s with players := ainsert id PlayerState.default s.players },
     PlayerState.default)

/-- `StorageHandle::lock_game_state`: look the game up; purge the entry and
report `none` if it is closed; otherwise return the guarded record. -/
def lock_game_state (s : StorageState) (id : Int) :
    StorageState × Option GameState :=
  match alookup id s.games with
  | none => (s, none)
  | some g =>
    if g.closed then ({ s with games := aerase id s.games }, none)
    else (s, some g)

/-- `GameEntry` as seen by `fetch_num_players`: the id and the mutable
`num_players` field it fills in. -/
structure GameEntry where
  id : Int
  num_players : Int
deriving DecidableEq, Repr

/-- `StorageHandle::fetch_num_players`: overwrite each entry's
`num_players` with the cached count when one is present. -/
def fetch_num_players (s : StorageState) (entries : List GameEntry) :
    List GameEntry :=
  entries.map (fun e =>
    match alookup e.id s.game_num_players with
    | some n => { e with num_players := usizeToI32 n }
    | none => e)

/-- The spec's `read_count`: the snapshot read of the cached count that
`fetch_num_players` performs per entry. -/
def read_count (s : StorageState) (id : Int) : Option Nat :=
  alookup id s.game_num_players

/-- `LockedPlayerState`: an exclusively held player record. -/
structure LockedPlayerState where
  id : Int
  guard : PlayerState
deriving DecidableEq, Repr

/-- `LockedPlayerState::joined_game_id`. -/
def LockedPlayerState.joined_game_id (l : LockedPlayerState) : Option Int :=
  l.guard.game_id

/-- `LockedPlayerState::join_game`. -/
def LockedPlayerState.join_game (l : LockedPlayerState) (gid : Int) :
    LockedPlayerState :=
  { l with guard := { l.guard with game_id := some gid } }

/-- `LockedPlayerState::leave_game`. -/
def LockedPlayerState.leave_game (l : LockedPlayerState) : LockedPlayerState :=
  { l with guard := { l.guard with game_id := none } }

/-- The count cache reached through a game guard's storage back-reference. -/
abbrev CountTable := List (Int × Nat)

/-- `LockedGameState`: an exclusively held game record.  The storage
back-reference is passed explicitly to the mutating methods as the
`CountTable` they update. -/
structure LockedGameState where
  id : Int
  guard : GameState
deriving DecidableEq, Repr

/-- `LockedGameState::has_player`. -/
def LockedGameState.has_player (l : LockedGameState) (pid : Int) : Bool :=
  l.guard.players.contains pid

/-- `LockedGameState::add_player`: push if absent and bump the cached
count via `and_modify`; no-op if present. -/
def LockedGameState.add_player (l : LockedGameState) (cnt : CountTable)
    (pid : Int) : LockedGameState × CountTable :=
  if l.guard.players.contains pid then (l, cnt)
  else
    ({ l with guard := { l.guard with players := l.guard.players ++ [pid] } },
     amodify l.id usizeWrapAdd1 cnt)

/-- `LockedGameState::remove_player`: `retain` away the id and decrement
the cached count via `and_modify` — unconditionally. -/
def LockedGameState.remove_player (l : LockedGameState) (cnt : CountTable)
    (pid : Int) : LockedGameState × CountTable :=
  ({ l with guard :=
      { l.guard with players := l.guard.players.filter (fun q => q != pid) } },
   amodify l.id usizeWrapSub1 cnt)

/-- `LockedGameState::close`: set the closed flag. -/
def LockedGameState.close (l : LockedGameState) : LockedGameState :=
  { l with guard := { l.guard with closed := true } }

/-- A single call made through a held game lease guard. -/
inductive GOp where
  | add (pid : Int)
  | remove (pid : Int)
  | close
deriving DecidableEq, Repr

/-- Dispatch one guard call to the corresponding `LockedGameState` method. -/
def applyGOp (p : LockedGameState × CountTable) (op : GOp) :
    LockedGameState × CountTable :=
  match op with
  | .add pid => p.1.add_player p.2 pid
  | .remove pid => p.1.remove_player p.2 pid
  | .close => (p.1.close, p.2)

/-- A complete game lease session: acquire via `lock_game_state` (which may
purge a closed entry), run the guard calls, and release.  Since the guard
aliases the record stored in the index, its final value is written back. -/
def game_session (s : StorageState) (gid : Int) (ops : List GOp) :
    StorageState :=
  match lock_game_state s gid with
  | (s1, none) => s1
  | (s1, some g) =>
    let r := ops.foldl applyGOp ({ id := gid, guard := g }, s1.game_num_players)
    { s1 with games := ainsert gid r.1.guard s1.games, game_num_players := r.2 }

/-- A single call made through a held player lease guard. -/
inductive POp where
  | join (gid : Int)
  | leave
deriving DecidableEq, Repr

/-- The effect of one player guard call on the guarded record. -/
def applyPOp (st : PlayerState) (op : POp) : PlayerState :=
  match op with
  | .join gid => { st with game_id := some gid }
  | .leave => { st with game_id := none }

/-- A complete player lease session: acquire via `lock_player_state`, run
the guard calls, release (the guard aliases the stored record). -/
def player_session (s : StorageState) (pid : Int) (ops : List POp) :
    StorageState :=
  match lock_player_state s pid with
  | (s1, st) => { s1 with players := ainsert pid (ops.foldl applyPOp st) s1.players }

/-- One complete store operation of the sequential trace semantics. -/
inductive Op where
  | register (id : Int) (players : List Int)
  | gameSession (gid : Int) (ops : List GOp)
  | playerSession (pid : Int) (ops : List POp)
deriving DecidableEq, Repr

/-- Apply one store operation. -/
def step (s : StorageState) : Op → StorageState
  | .register id ps => register_game s id ps
  | .gameSession gid ops => game_session s gid ops
  | .playerSession pid ops => player_session s pid ops

/-- Run a trace of store operations. -/
def run (s : StorageState) (ops : List Op) : StorageState :=
  ops.foldl step s

/-- A list of guard calls is safe for a held guard and its count table
when every `remove` targets a player present at the moment of the call,
and every `add` that fires the count increment does not overflow the
existing count entry.  The overflow side condition holds in every
program-representable state (a count only reaches `2^64 - 1` through the
separate underflow hazard or an impossible number of members), and is
needed because the modelled increment wraps exactly as the `usize` one
does. -/
def safeGOps : LockedGameState × CountTable → List GOp → Bool
  | _, [] => true
  | p, op :: rest =>
    (match op with
     | .add pid =>
       p.1.guard.players.contains pid ||
         (match alookup p.1.id p.2 with
          | some v => decide (v + 1 < USIZE)
          | none => true)
     | .remove pid => p.1.guard.players.contains pid
     | .close => true) && safeGOps (applyGOp p op) rest

/-- Executable duplicate-freedom check for id lists. -/
def nodupB : List Int → Bool
  | [] => true
  | x :: xs => !(xs.contains x) && nodupB xs

/-- A store operation is safe in a state when registered member lists are
duplicate-free and its game session is safe (`safeGOps`). -/
def safeOp (s : StorageState) : Op → Bool
  | .register _ ps => nodupB ps
  | .gameSession gid gops =>
    match (lock_game_state s gid).2 with
    | some g => safeGOps ({ id := gid, guard := g }, s.game_num_players) gops
    | none => true
  | .playerSession _ _ => true

/-- A trace is safe when each operation is safe in the state it runs in. -/
def safeOps (s : StorageState) : List Op → Bool
  | [] => true
  | op :: rest => safeOp s op && safeOps (step s op) rest

/-- Seed data is well formed when every member list is duplicate-free. -/
def seedOk (data : List GameStateFromDb) : Bool :=
  data.all (fun item => nodupB item.players)

theorem contains_eq_true_iff_mem (xs : List Int) (a : Int) :
    xs.contains a = true ↔ a ∈ xs := by
  induction xs with
  | nil => simp
  | cons x rest ih =>
    simp only [List.contains_cons, Bool.or_eq_true, beq_iff_eq, ih,
      List.mem_cons]

theorem contains_eq_false_iff_not_mem (xs : List Int) (a : Int) :
    xs.contains a = false ↔ a ∉ xs := by
  constructor
  · intro h hm
    rw [(contains_eq_true_iff_mem xs a).mpr hm] at h
    cases h
  · intro h
    rcases hc : xs.contains a
    · rfl
    · exact absurd ((contains_eq_true_iff_mem xs a).mp hc) h

theorem nodupB_eq_true_iff_nodup (xs : List Int) :
    nodupB xs = true ↔ xs.Nodup := by
  induction xs with
  | nil => simp [nodupB]
  | cons x rest ih =>
    simp [nodupB, List.nodup_cons, ih, contains_eq_true_iff_mem]

theorem filter_ne_of_not_mem (xs : List Int) (a : Int) (h : a ∉ xs) :
    xs.filter (fun q => q != a) = xs := by
  induction xs with
  | nil => rfl
  | cons x rest ih =>
    have hx : (x != a) = true := by
      have : x ≠ a := fun he => h (he ▸ List.mem_cons_self x rest)
      simpa [bne_iff_ne] using this
    have hr : a ∉ rest := fun hm => h (List.mem_cons_of_mem x hm)
    rw [List.filter_cons, if_pos hx, ih hr]

theorem not_mem_filter_ne (xs : List Int) (a : Int) :
    a ∉ xs.filter (fun q => q != a) := by
  intro h
  have := List.of_mem_filter h
  simp at this

theorem length_filter_ne_add_one (xs : List Int) (a : Int) (hnd : xs.Nodup)
    (hm : a ∈ xs) : (xs.filter (fun q => q != a)).length + 1 = xs.length := by
  induction xs with
  | nil => cases hm
  | cons x rest ih =>
    rcases List.nodup_cons.mp hnd with ⟨hx, hrest⟩
    by_cases hxa : x = a
    · subst hxa
      simp [List.filter_cons, filter_ne_of_not_mem rest x hx]
    · have hm2 : a ∈ rest := by
        rcases List.mem_cons.mp hm with h1 | h1
        · exact absurd h1.symm hxa
        · exact h1
      simp [List.filter_cons, bne_iff_ne, hxa, List.length_cons]
      exact ih hrest hm2

theorem nodup_snoc (xs : List Int) (a : Int) (hnd : xs.Nodup) (h : a ∉ xs) :
    (xs ++ [a]).Nodup := by
  simp [List.nodup_append, hnd, h]

/-- The coarse-index invariant: every indexed game's cached count equals
its membership length, and its membership has no duplicates. -/
def CountsAndNodup (s : StorageState) : Prop :=
  ∀ gid g, alookup gid s.games = some g →
    alookup gid s.game_num_players = some g.players.length ∧ g.players.Nodup

theorem session_fold_inv (gops : List GOp) :
    ∀ (l : LockedGameState) (cnt : CountTable),
      alookup l.id cnt = some l.guard.players.length →
      l.guard.players.Nodup →
      safeGOps (l, cnt) gops = true →
      (gops.foldl applyGOp (l, cnt)).1.id = l.id ∧
      alookup l.id (gops.foldl applyGOp (l, cnt)).2
        = some (gops.foldl applyGOp (l, cnt)).1.guard.players.length ∧
      (gops.foldl applyGOp (l, cnt)).1.guard.players.Nodup ∧
      (∀ k, k ≠ l.id →
        alookup k (gops.foldl applyGOp (l, cnt)).2 = alookup k cnt) := by
  induction gops with
  | nil =>
    intro l cnt hc hnd _
    exact ⟨rfl, hc, hnd, fun k _ => rfl⟩
  | cons op rest ih =>
    intro l cnt hc hnd hsafe
    rw [List.foldl_cons]
    cases op with
    | add pid =>
      simp only [safeGOps, Bool.and_eq_true] at hsafe
      rcases hsafe with ⟨hcond, htail⟩
      by_cases hmem : pid ∈ l.guard.players
      · have happ : applyGOp (l, cnt) (GOp.add pid) = (l, cnt) := by
          simp [applyGOp, LockedGameState.add_player, hmem]
        rw [happ]
        rw [happ] at htail
        exact ih l cnt hc hnd htail
      · have hmemB : l.guard.players.contains pid = false :=
          (contains_eq_false_iff_not_mem _ _).mpr hmem
        have happ : applyGOp (l, cnt) (GOp.add pid) =
            ({ l with guard :=
                { l.guard with players := l.guard.players ++ [pid] } },
             amodify l.id usizeWrapAdd1 cnt) := by
          simp [applyGOp, LockedGameState.add_player, hmem]
        have hbound : l.guard.players.length + 1 < USIZE := by
          rw [hmemB, hc] at hcond
          simpa using hcond
        rw [happ]
        rw [happ] at htail
        have hc1 : alookup l.id (amodify l.id usizeWrapAdd1 cnt)
            = some (l.guard.players ++ [pid]).length := by
          rw [alookup_amodify_self, hc]
          simp [usizeWrapAdd1, Nat.mod_eq_of_lt hbound]
        have hnd1 : (l.guard.players ++ [pid]).Nodup :=
          nodup_snoc _ _ hnd hmem
        rcases ih { l with guard :=
            { l.guard with players := l.guard.players ++ [pid] } }
            (amodify l.id usizeWrapAdd1 cnt) hc1 hnd1 htail with
          ⟨hid, hcf, hndf, hframe⟩
        refine ⟨hid, hcf, hndf, fun k hk => ?_⟩
        rw [hframe k hk, alookup_amodify_ne hk]
    | remove pid =>
      simp only [safeGOps, Bool.and_eq_true] at hsafe
      rcases hsafe with ⟨hcond, htail⟩
      have hpid : pid ∈ l.guard.players :=
        (contains_eq_true_iff_mem _ _).mp hcond
      have happ : applyGOp (l, cnt) (GOp.remove pid) =
          ({ l with guard :=
              { l.guard with
                players := l.guard.players.filter (fun q => q != pid) } },
           amodify l.id usizeWrapSub1 cnt) := by
        simp [applyGOp, LockedGameState.remove_player]
      rw [happ]
      rw [happ] at htail
      have hlen : (l.guard.players.filter (fun q => q != pid)).length + 1
          = l.guard.players.length :=
        length_filter_ne_add_one _ _ hnd hpid
      have hc1 : alookup l.id (amodify l.id usizeWrapSub1 cnt)
          = some (l.guard.players.filter (fun q => q != pid)).length := by
        rw [alookup_amodify_self, hc]
        have hpos : l.guard.players.length ≠ 0 := by omega
        simp [usizeWrapSub1, hpos]
        omega
      have hnd1 : (l.guard.players.filter (fun q => q != pid)).Nodup :=
        List.Nodup.filter _ hnd
      rcases ih { l with guard :=
          { l.guard with
            players := l.guard.players.filter (fun q => q != pid) } }
          (amodify l.id usizeWrapSub1 cnt) hc1 hnd1 htail with
        ⟨hid, hcf, hndf, hframe⟩
      refine ⟨hid, hcf, hndf, fun k hk => ?_⟩
      rw [hframe k hk, alookup_amodify_ne hk]
    | close =>
      simp only [safeGOps, Bool.and_eq_true] at hsafe
      rcases hsafe with ⟨_, htail⟩
      have happ : applyGOp (l, cnt) GOp.close = (l.close, cnt) := rfl
      rw [happ]
      rw [happ] at htail
      exact ih l.close cnt hc hnd htail

theorem inv_seed_fold (data : List GameStateFromDb) :
    ∀ acc, CountsAndNodup acc → seedOk data = true →
      CountsAndNodup (data.foldl seedOne acc) := by
  induction data with
  | nil => intro acc hacc _; simpa using hacc
  | cons d rest ih =>
    intro acc hacc hok
    have hnodup : d.players.Nodup := by
      have : nodupB d.players = true := by
        simp [seedOk] at hok
        exact hok.1
      exact (nodupB_eq_true_iff_nodup _).mp this
    have hrest : seedOk rest = true := by
      simp [seedOk] at hok ⊢
      exact hok.2
    rw [List.foldl_cons]
    refine ih (seedOne acc d) ?_ hrest
    intro gid g hg
    by_cases hid : gid = d.id
    · subst hid
      have : some ({ players := d.players, closed := false } : GameState)
          = some g := by
        rw [← hg]
        exact (alookup_ainsert_self _ _ _).symm
      have hgeq : g = { players := d.players, closed := false } :=
        (Option.some.injEq _ _ ▸ this).symm
      subst hgeq
      constructor
      · exact alookup_ainsert_self _ _ _
      · exact hnodup
    · have hg2 : alookup gid acc.games = some g := by
        rw [← hg]
        exact (alookup_ainsert_ne hid _ _).symm
      rcases hacc gid g hg2 with ⟨hc, hnd⟩
      exact ⟨by rw [show (seedOne acc d).game_num_players
          = ainsert d.id d.players.length acc.game_num_players from rfl,
          alookup_ainsert_ne hid]; exact hc, hnd⟩

theorem inv_step (s : StorageState) (op : Op) (hs : CountsAndNodup s)
    (h : safeOp s op = true) : CountsAndNodup (step s op) := by
  cases op with
  | register id ps =>
    have hnodup : ps.Nodup := (nodupB_eq_true_iff_nodup _).mp h
    intro gid g hg
    by_cases hid : gid = id
    · subst hid
      have : some (GameState.new ps) = some g := by
        rw [← hg]
        exact (alookup_ainsert_self _ _ _).symm
      have hgeq : g = GameState.new ps := (Option.some.injEq _ _ ▸ this).symm
      subst hgeq
      exact ⟨alookup_ainsert_self _ _ _, hnodup⟩
    · have hg2 : alookup gid s.games = some g := by
        rw [← hg]
        exact (alookup_ainsert_ne hid _ _).symm
      rcases hs gid g hg2 with ⟨hc, hnd⟩
      exact ⟨by rw [show (step s (Op.register id ps)).game_num_players
          = ainsert id ps.length s.game_num_players from rfl,
          alookup_ainsert_ne hid]; exact hc, hnd⟩
  | gameSession gid gops =>
    rcases hlook : alookup gid s.games with _ | g
    · have : step s (Op.gameSession gid gops) = s := by
        simp [step, game_session, lock_game_state, hlook]
      rw [this]
      exact hs
    · by_cases hcl : g.closed
      · have : step s (Op.gameSession gid gops)
            = { s with games := aerase gid s.games } := by
          simp [step, game_session, lock_game_state, hlook, hcl]
        rw [this]
        intro gid' g' hg'
        by_cases hid : gid' = gid
        · subst hid
          rw [show ({ s with games := aerase gid' s.games } :
              StorageState).games = aerase gid' s.games from rfl,
            alookup_aerase_self] at hg'
          cases hg'
        · have hg2 : alookup gid' s.games = some g' := by
            rw [← hg']
            exact (alookup_aerase_ne hid _).symm
          exact hs gid' g' hg2
      · have hclf : g.closed = false := by
          cases hcg : g.closed
          · rfl
          · exact absurd hcg hcl
        rcases hs gid g hlook with ⟨hc, hnd⟩
        have hsafeg : safeGOps ({ id := gid, guard := g }, s.game_num_players)
            gops = true := by
          simpa [safeOp, lock_game_state, hlook, hclf] using h
        have hstep : step s (Op.gameSession gid gops) =
            { s with
              games := ainsert gid
                (gops.foldl applyGOp
                  ({ id := gid, guard := g }, s.game_num_players)).1.guard
                s.games,
              game_num_players :=
                (gops.foldl applyGOp
                  ({ id := gid, guard := g }, s.game_num_players)).2 } := by
          simp [step, game_session, lock_game_state, hlook, hclf]
        rcases session_fold_inv gops { id := gid, guard := g }
            s.game_num_players hc hnd hsafeg with ⟨_, hcf, hndf, hframe⟩
        rw [hstep]
        intro gid' g' hg'
        by_cases hid : gid' = gid
        · subst hid
          have hgeq : g' = (gops.foldl applyGOp
              ({ id := gid', guard := g }, s.game_num_players)).1.guard := by
            have := hg'
            rw [show ({ s with
                games := ainsert gid'
                  (gops.foldl applyGOp
                    ({ id := gid', guard := g }, s.game_num_players)).1.guard
                  s.games,
                game_num_players :=
                  (gops.foldl applyGOp
                    ({ id := gid', guard := g }, s.game_num_players)).2 } :
                StorageState).games = ainsert gid'
                  (gops.foldl applyGOp
                    ({ id := gid', guard := g }, s.game_num_players)).1.guard
                  s.games from rfl, alookup_ainsert_self] at this
            exact (Option.some.injEq _ _ ▸ this).symm
          subst hgeq
          exact ⟨hcf, hndf⟩
        · have hg2 : alookup gid' s.games = some g' := by
            rw [← hg']
            exact (alookup_ainsert_ne hid _ _).symm
          rcases hs gid' g' hg2 with ⟨hc', hnd'⟩
          exact ⟨by rw [show ({ s with
              games := ainsert gid
                (gops.foldl applyGOp
                  ({ id := gid, guard := g }, s.game_num_players)).1.guard
                s.games,
              game_num_players :=
                (gops.foldl applyGOp
                  ({ id := gid, guard := g }, s.game_num_players)).2 } :
              StorageState).game_num_players
              = (gops.foldl applyGOp
                  ({ id := gid, guard := g }, s.game_num_players)).2 from rfl,
            hframe gid' hid]; exact hc', hnd'⟩
  | playerSession pid pops =>
    have hgames : (step s (Op.playerSession pid pops)).games = s.games := by
      simp only [step, player_session, lock_player_state]
      rcases alookup pid s.players with _ | st <;> rfl
    have hcnt : (step s (Op.playerSession pid pops)).game_num_players
        = s.game_num_players := by
      simp only [step, player_session, lock_player_state]
      rcases alookup pid s.players with _ | st <;> rfl
    intro gid g hg
    rw [hgames] at hg
    rw [hcnt]
    exact hs gid g hg

theorem inv_run (ops : List Op) :
    ∀ s, CountsAndNodup s → safeOps s ops = true →
      CountsAndNodup (run s ops) := by
  induction ops with
  | nil => intro s hs _; simpa [run] using hs
  | cons op rest ih =>
    intro s hs hsafe
    have h1 : safeOp s op = true := by
      simp [safeOps] at hsafe
      exact hsafe.1
    have h2 : safeOps (step s op) rest = true := by
      simp [safeOps] at hsafe
      exact hsafe.2
    have : run s (op :: rest) = run (step s op) rest := by
      simp [run]
    rw [this]
    exact ih (step s op) (inv_step s op hs h1) h2

/-- Executable disjointness check between two id lists. -/
def disjB (xs ys : List Int) : Bool :=
  xs.all (fun x => !(ys.contains x))

/-- Seed rows have pairwise disjoint member lists: no player id is listed
by two different rows. -/
def pairwiseDisjointB : List GameStateFromDb → Bool
  | [] => true
  | d :: rest =>
    rest.all (fun e => disjB d.players e.players) && pairwiseDisjointB rest

theorem disjB_spec (xs ys : List Int) (h : disjB xs ys = true) (a : Int)
    (ha : a ∈ xs) : a ∉ ys := by
  have := List.all_eq_true.mp h a ha
  intro hmem
  rw [(contains_eq_true_iff_mem ys a).mpr hmem] at this
  simp at this

theorem alookup_insertSeedPlayers_not_mem (ps : List Int) :
    ∀ (gid pid : Int) (m : List (Int × PlayerState)), pid ∉ ps →
      alookup pid (insertSeedPlayers gid ps m) = alookup pid m := by
  induction ps with
  | nil => intro gid pid m _; rfl
  | cons q qs ih =>
    intro gid pid m hpid
    have hq : pid ≠ q := fun he => hpid (he ▸ List.mem_cons_self q qs)
    have hqs : pid ∉ qs := fun hm => hpid (List.mem_cons_of_mem q hm)
    show alookup pid (insertSeedPlayers gid qs
      (ainsert q { game_id := some gid, sender := none } m)) = alookup pid m
    rw [ih gid pid _ hqs, alookup_ainsert_ne hq]

theorem alookup_insertSeedPlayers_mem (ps : List Int) :
    ∀ (gid pid : Int) (m : List (Int × PlayerState)), pid ∈ ps →
      alookup pid (insertSeedPlayers gid ps m)
        = some { game_id := some gid, sender := none } := by
  induction ps with
  | nil => intro gid pid m h; cases h
  | cons q qs ih =>
    intro gid pid m hpid
    by_cases hqs : pid ∈ qs
    · exact ih gid pid _ hqs
    · have hq : pid = q := by
        rcases List.mem_cons.mp hpid with h1 | h1
        · exact h1
        · exact absurd h1 hqs
      subst hq
      show alookup pid (insertSeedPlayers gid qs
        (ainsert pid { game_id := some gid, sender := none } m))
        = some { game_id := some gid, sender := none }
      rw [alookup_insertSeedPlayers_not_mem qs gid pid _ hqs,
        alookup_ainsert_self]

theorem seed_fold_players_frame (data : List GameStateFromDb) :
    ∀ (acc : StorageState) (pid : Int),
      (∀ item ∈ data, pid ∉ item.players) →
      alookup pid (data.foldl seedOne acc).players = alookup pid acc.players := by
  induction data with
  | nil => intro acc pid _; rfl
  | cons d rest ih =>
    intro acc pid h
    have hd : pid ∉ d.players := h d (List.mem_cons_self d rest)
    have hrest : ∀ item ∈ rest, pid ∉ item.players :=
      fun item hm => h item (List.mem_cons_of_mem d hm)
    rw [List.foldl_cons, ih (seedOne acc d) pid hrest]
    exact alookup_insertSeedPlayers_not_mem d.players d.id pid acc.players hd

theorem seed_fold_count_frame (data : List GameStateFromDb) :
    ∀ (acc : StorageState) (gid : Int),
      (∀ item ∈ data, gid ≠ item.id) →
      alookup gid (data.foldl seedOne acc).game_num_players
        = alookup gid acc.game_num_players := by
  induction data with
  | nil => intro acc gid _; rfl
  | cons d rest ih =>
    intro acc gid h
    have hd : gid ≠ d.id := h d (List.mem_cons_self d rest)
    have hrest : ∀ item ∈ rest, gid ≠ item.id :=
      fun item hm => h item (List.mem_cons_of_mem d hm)
    rw [List.foldl_cons, ih (seedOne acc d) gid hrest]
    exact alookup_ainsert_ne hd _ _

theorem seed_fold_attach (data : List GameStateFromDb) :
    ∀ (acc : StorageState),
      nodupB (data.map GameStateFromDb.id) = true →
      pairwiseDisjointB data = true →
      ∀ item ∈ data, ∀ pid ∈ item.players,
        alookup pid (data.foldl seedOne acc).players
          = some { game_id := some item.id, sender := none } ∧
        alookup item.id (data.foldl seedOne acc).game_num_players
          = some item.players.length := by
  induction data with
  | nil => intro acc _ _ item h; cases h
  | cons d rest ih =>
    intro acc hid hdisj item hitem pid hpid
    have hidtail : nodupB (rest.map GameStateFromDb.id) = true := by
      simp [nodupB] at hid
      exact hid.2
    have hdisjtail : pairwiseDisjointB rest = true := by
      simp [pairwiseDisjointB] at hdisj
      have := hdisj.2
      simpa [pairwiseDisjointB] using this
    rcases List.mem_cons.mp hitem with hd | hrest
    · subst hd
      have hfresh : ∀ e ∈ rest, pid ∉ e.players := by
        intro e he
        have hall : disjB item.players e.players = true := by
          simp [pairwiseDisjointB] at hdisj
          have := hdisj.1 e he
          simpa [disjB] using this
        exact disjB_spec _ _ hall pid hpid
      have hidfresh : ∀ e ∈ rest, item.id ≠ e.id := by
        intro e he heq
        simp [nodupB] at hid
        exact hid.1 e he heq.symm
      constructor
      · rw [List.foldl_cons, seed_fold_players_frame rest (seedOne acc item) pid hfresh]
        exact alookup_insertSeedPlayers_mem item.players item.id pid acc.players hpid
      · rw [List.foldl_cons, seed_fold_count_frame rest (seedOne acc item) item.id hidfresh]
        exact alookup_ainsert_self _ _ _
    · exact ih (seedOne acc d) hidtail hdisjtail item hrest pid hpid

theorem inv_reachable (seed : List GameStateFromDb) (ops : List Op)
    (hseed : seedOk seed = true)
    (hops : safeOps (StorageState.new seed) ops = true) :
    CountsAndNodup (run (StorageState.new seed) ops) := by
  refine inv_run ops (StorageState.new seed) ?_ hops
  refine inv_seed_fold seed _ ?_ hseed
  intro gid g hg
  simp [alookup] at hg

/-- Register inputs along a trace are duplicate-free; game and player
sessions are unrestricted. -/
def nodupInputs : List Op → Bool
  | [] => true
  | op :: rest =>
    (match op with
     | .register _ ps => nodupB ps
     | _ => true) && nodupInputs rest

/-- Every indexed game's members list is duplicate-free. -/
def NodupGames (s : StorageState) : Prop :=
  ∀ gid g, alookup gid s.games = some g → g.players.Nodup

theorem session_fold_nodup (gops : List GOp) :
    ∀ (p : LockedGameState × CountTable), p.1.guard.players.Nodup →
      (gops.foldl applyGOp p).1.guard.players.Nodup := by
  induction gops with
  | nil => intro p h; exact h
  | cons op rest ih =>
    intro p h
    rw [List.foldl_cons]
    refine ih _ ?_
    cases op with
    | add pid =>
      by_cases hmem : pid ∈ p.1.guard.players
      · have happ : applyGOp p (GOp.add pid) = p := by
          cases p with
          | mk l cnt => simp [applyGOp, LockedGameState.add_player, hmem]
        rw [happ]
        exact h
      · have happ : (applyGOp p (GOp.add pid)).1.guard.players
            = p.1.guard.players ++ [pid] := by
          cases p with
          | mk l cnt => simp [applyGOp, LockedGameState.add_player, hmem]
        rw [happ]
        exact nodup_snoc _ _ h hmem
    | remove pid =>
      have happ : (applyGOp p (GOp.remove pid)).1.guard.players
          = p.1.guard.players.filter (fun q => q != pid) := rfl
      rw [happ]
      exact List.Nodup.filter _ h
    | close => exact h

theorem nodup_step (s : StorageState) (op : Op) (hs : NodupGames s)
    (hreg : ∀ id ps, op = Op.register id ps → ps.Nodup) :
    NodupGames (step s op) := by
  cases op with
  | register id ps =>
    intro gid g hg
    by_cases hid : gid = id
    · subst hid
      have h2 : alookup gid (ainsert gid (GameState.new ps) s.games)
          = some g := hg
      rw [alookup_ainsert_self] at h2
      have hgeq : g = GameState.new ps := (Option.some.injEq _ _ ▸ h2).symm
      subst hgeq
      exact hreg gid ps rfl
    · have hg2 : alookup gid s.games = some g := by
        have h2 : alookup gid (ainsert id (GameState.new ps) s.games)
            = some g := hg
        rw [alookup_ainsert_ne hid] at h2
        exact h2
      exact hs gid g hg2
  | gameSession gid gops =>
    rcases hlook : alookup gid s.games with _ | g
    · have heq : step s (Op.gameSession gid gops) = s := by
        simp [step, game_session, lock_game_state, hlook]
      rw [heq]
      exact hs
    · by_cases hcl : g.closed
      · have heq : step s (Op.gameSession gid gops)
            = { s with games := aerase gid s.games } := by
          simp [step, game_session, lock_game_state, hlook, hcl]
        rw [heq]
        intro gid' g' hg'
        by_cases hid : gid' = gid
        · subst hid
          have h2 : alookup gid' (aerase gid' s.games) = some g' := hg'
          rw [alookup_aerase_self] at h2
          cases h2
        · have h2 : alookup gid' (aerase gid s.games) = some g' := hg'
          rw [alookup_aerase_ne hid] at h2
          exact hs gid' g' h2
      · have hclf : g.closed = false := by
          cases hcg : g.closed
          · rfl
          · exact absurd hcg hcl
        have hstep : step s (Op.gameSession gid gops) =
            { s with
              games := ainsert gid
                (gops.foldl applyGOp
                  ({ id := gid, guard := g }, s.game_num_players)).1.guard
                s.games,
              game_num_players :=
                (gops.foldl applyGOp
                  ({ id := gid, guard := g }, s.game_num_players)).2 } := by
          simp [step, game_session, lock_game_state, hlook, hclf]
        rw [hstep]
        intro gid' g' hg'
        by_cases hid : gid' = gid
        · subst hid
          have h2 : alookup gid' (ainsert gid'
              (gops.foldl applyGOp
                ({ id := gid', guard := g }, s.game_num_players)).1.guard
              s.games) = some g' := hg'
          rw [alookup_ainsert_self] at h2
          have hgeq : g' = (gops.foldl applyGOp
              ({ id := gid', guard := g }, s.game_num_players)).1.guard :=
            (Option.some.injEq _ _ ▸ h2).symm
          subst hgeq
          exact session_fold_nodup gops _ (hs gid' g hlook)
        · have h2 : alookup gid' (ainsert gid
              (gops.foldl applyGOp
                ({ id := gid, guard := g }, s.game_num_players)).1.guard
              s.games) = some g' := hg'
          rw [alookup_ainsert_ne hid] at h2
          exact hs gid' g' h2
  | playerSession pid pops =>
    have hgames : (step s (Op.playerSession pid pops)).games = s.games := by
      simp only [step, player_session, lock_player_state]
      rcases alookup pid s.players with _ | st <;> rfl
    intro gid g hg
    rw [hgames] at hg
    exact hs gid g hg

theorem nodup_run (ops : List Op) :
    ∀ s, NodupGames s → nodupInputs ops = true → NodupGames (run s ops) := by
  induction ops with
  | nil => intro s hs _; simpa [run] using hs
  | cons op rest ih =>
    intro s hs hsafe
    simp only [nodupInputs, Bool.and_eq_true] at hsafe
    rcases hsafe with ⟨hhead, htail⟩
    have hreg : ∀ id ps, op = Op.register id ps → ps.Nodup := by
      intro id ps he
      subst he
      exact (nodupB_eq_true_iff_nodup ps).mp hhead
    have heq : run s (op :: rest) = run (step s op) rest := by
      simp [run]
    rw [heq]
    exact ih (step s op) (nodup_step s op hs hreg) htail

/-- A trace whose game sessions are all safe (`safeGOps`: removes target
present players, increments do not overflow); register inputs are
unrestricted. -/
def sessionSafeOp (s : StorageState) : Op → Bool
  | .register _ _ => true
  | .gameSession gid gops =>
    match (lock_game_state s gid).2 with
    | some g => safeGOps ({ id := gid, guard := g }, s.game_num_players) gops
    | none => true
  | .playerSession _ _ => true

/-- All operations of a trace are session-safe in the states they run in. -/
def sessionSafeOps (s : StorageState) : List Op → Bool
  | [] => true
  | op :: rest => sessionSafeOp s op && sessionSafeOps (step s op) rest

/-- Every indexed game has a cached-count entry of at least its members
length (the count may exceed the length once duplicated members have been
removed, but never falls below it under present-target removes). -/
def CountGeLen (s : StorageState) : Prop :=
  ∀ gid g, alookup gid s.games = some g →
    ∃ v, alookup gid s.game_num_players = some v ∧ g.players.length ≤ v

theorem length_filter_ne_lt (xs : List Int) (a : Int) (hm : a ∈ xs) :
    (xs.filter (fun q => q != a)).length < xs.length := by
  induction xs with
  | nil => cases hm
  | cons x rest ih =>
    by_cases hxa : x = a
    · subst hxa
      have hle : (List.filter (fun q => q != x) rest).length ≤ rest.length :=
        List.length_filter_le _ _
      simp [List.filter_cons]
      omega
    · have hm2 : a ∈ rest := by
        rcases List.mem_cons.mp hm with h1 | h1
        · exact absurd h1.symm hxa
        · exact h1
      have := ih hm2
      simp [List.filter_cons, bne_iff_ne, hxa]
      omega

theorem session_fold_ge (gops : List GOp) :
    ∀ (l : LockedGameState) (cnt : CountTable) (v : Nat),
      alookup l.id cnt = some v →
      l.guard.players.length ≤ v →
      safeGOps (l, cnt) gops = true →
      (gops.foldl applyGOp (l, cnt)).1.id = l.id ∧
      (∃ v2, alookup l.id (gops.foldl applyGOp (l, cnt)).2 = some v2 ∧
        (gops.foldl applyGOp (l, cnt)).1.guard.players.length ≤ v2) ∧
      (∀ k, k ≠ l.id →
        alookup k (gops.foldl applyGOp (l, cnt)).2 = alookup k cnt) := by
  induction gops with
  | nil =>
    intro l cnt v hc hle _
    exact ⟨rfl, ⟨v, hc, hle⟩, fun k _ => rfl⟩
  | cons op rest ih =>
    intro l cnt v hc hle hsafe
    rw [List.foldl_cons]
    cases op with
    | add pid =>
      simp only [safeGOps, Bool.and_eq_true] at hsafe
      rcases hsafe with ⟨hcond, htail⟩
      by_cases hmem : pid ∈ l.guard.players
      · have happ : applyGOp (l, cnt) (GOp.add pid) = (l, cnt) := by
          simp [applyGOp, LockedGameState.add_player, hmem]
        rw [happ]
        rw [happ] at htail
        exact ih l cnt v hc hle htail
      · have hmemB : l.guard.players.contains pid = false :=
          (contains_eq_false_iff_not_mem _ _).mpr hmem
        have happ : applyGOp (l, cnt) (GOp.add pid) =
            ({ l with guard :=
                { l.guard with players := l.guard.players ++ [pid] } },
             amodify l.id usizeWrapAdd1 cnt) := by
          simp [applyGOp, LockedGameState.add_player, hmem]
        have hbound : v + 1 < USIZE := by
          rw [hmemB, hc] at hcond
          simpa using hcond
        rw [happ]
        rw [happ] at htail
        have hc1 : alookup l.id (amodify l.id usizeWrapAdd1 cnt)
            = some (v + 1) := by
          rw [alookup_amodify_self, hc]
          simp [usizeWrapAdd1, Nat.mod_eq_of_lt hbound]
        have hle1 : (l.guard.players ++ [pid]).length ≤ v + 1 := by
          simp only [List.length_append, List.length_cons, List.length_nil]
          omega
        rcases ih { l with guard :=
            { l.guard with players := l.guard.players ++ [pid] } }
            (amodify l.id usizeWrapAdd1 cnt) (v + 1) hc1 hle1 htail with
          ⟨hid, hex, hframe⟩
        refine ⟨hid, hex, fun k hk => ?_⟩
        rw [hframe k hk, alookup_amodify_ne hk]
    | remove pid =>
      simp only [safeGOps, Bool.and_eq_true] at hsafe
      rcases hsafe with ⟨hcond, htail⟩
      have hpid : pid ∈ l.guard.players :=
        (contains_eq_true_iff_mem _ _).mp hcond
      have happ : applyGOp (l, cnt) (GOp.remove pid) =
          ({ l with guard :=
              { l.guard with
                players := l.guard.players.filter (fun q => q != pid) } },
           amodify l.id usizeWrapSub1 cnt) := by
        simp [applyGOp, LockedGameState.remove_player]
      rw [happ]
      rw [happ] at htail
      have hlenpos : 0 < l.guard.players.length :=
        List.length_pos.mpr (List.ne_nil_of_mem hpid)
      have hvpos : v ≠ 0 := by omega
      have hc1 : alookup l.id (amodify l.id usizeWrapSub1 cnt)
          = some (v - 1) := by
        rw [alookup_amodify_self, hc]
        simp [usizeWrapSub1, hvpos]
      have hflt : (l.guard.players.filter (fun q => q != pid)).length
          < l.guard.players.length := length_filter_ne_lt _ _ hpid
      have hle1 : (l.guard.players.filter (fun q => q != pid)).length
          ≤ v - 1 := by omega
      rcases ih { l with guard :=
          { l.guard with
            players := l.guard.players.filter (fun q => q != pid) } }
          (amodify l.id usizeWrapSub1 cnt) (v - 1) hc1 hle1 htail with
        ⟨hid, hex, hframe⟩
      refine ⟨hid, hex, fun k hk => ?_⟩
      rw [hframe k hk, alookup_amodify_ne hk]
    | close =>
      simp only [safeGOps, Bool.and_eq_true] at hsafe
      rcases hsafe with ⟨_, htail⟩
      have happ : applyGOp (l, cnt) GOp.close = (l.close, cnt) := rfl
      rw [happ]
      rw [happ] at htail
      exact ih l.close cnt v hc hle htail

theorem ge_seed_fold (data : List GameStateFromDb) :
    ∀ acc, CountGeLen acc → CountGeLen (data.foldl seedOne acc) := by
  induction data with
  | nil => intro acc h; simpa using h
  | cons d rest ih =>
    intro acc hacc
    rw [List.foldl_cons]
    refine ih (seedOne acc d) ?_
    intro gid g hg
    by_cases hid : gid = d.id
    · subst hid
      have h2 : alookup d.id
          (ainsert d.id { players := d.players, closed := false } acc.games)
          = some g := hg
      rw [alookup_ainsert_self] at h2
      have hgeq : g = { players := d.players, closed := false } :=
        (Option.some.injEq _ _ ▸ h2).symm
      subst hgeq
      exact ⟨d.players.length, alookup_ainsert_self _ _ _, le_refl _⟩
    · have h2 : alookup gid
          (ainsert d.id { players := d.players, closed := false } acc.games)
          = some g := hg
      rw [alookup_ainsert_ne hid] at h2
      rcases hacc gid g h2 with ⟨v, hv, hle⟩
      exact ⟨v, by
        have h3 : alookup gid
            (ainsert d.id d.players.length acc.game_num_players)
            = alookup gid acc.game_num_players := alookup_ainsert_ne hid _ _
        rw [show (seedOne acc d).game_num_players
          = ainsert d.id d.players.length acc.game_num_players from rfl, h3]
        exact hv, hle⟩

theorem ge_step (s : StorageState) (op : Op) (hs : CountGeLen s)
    (h : sessionSafeOp s op = true) : CountGeLen (step s op) := by
  cases op with
  | register id ps =>
    intro gid g hg
    by_cases hid : gid = id
    · subst hid
      have h2 : alookup gid (ainsert gid (GameState.new ps) s.games)
          = some g := hg
      rw [alookup_ainsert_self] at h2
      have hgeq : g = GameState.new ps := (Option.some.injEq _ _ ▸ h2).symm
      subst hgeq
      exact ⟨ps.length, alookup_ainsert_self _ _ _, le_refl _⟩
    · have h2 : alookup gid (ainsert id (GameState.new ps) s.games)
          = some g := hg
      rw [alookup_ainsert_ne hid] at h2
      rcases hs gid g h2 with ⟨v, hv, hle⟩
      refine ⟨v, ?_, hle⟩
      have h3 : alookup gid (ainsert id ps.length s.game_num_players)
          = alookup gid s.game_num_players := alookup_ainsert_ne hid _ _
      rw [show (step s (Op.register id ps)).game_num_players
        = ainsert id ps.length s.game_num_players from rfl, h3]
      exact hv
  | gameSession gid gops =>
    rcases hlook : alookup gid s.games with _ | g
    · have heq : step s (Op.gameSession gid gops) = s := by
        simp [step, game_session, lock_game_state, hlook]
      rw [heq]
      exact hs
    · by_cases hcl : g.closed
      · have heq : step s (Op.gameSession gid gops)
            = { s with games := aerase gid s.games } := by
          simp [step, game_session, lock_game_state, hlook, hcl]
        rw [heq]
        intro gid' g' hg'
        by_cases hid : gid' = gid
        · subst hid
          have h2 : alookup gid' (aerase gid' s.games) = some g' := hg'
          rw [alookup_aerase_self] at h2
          cases h2
        · have h2 : alookup gid' (aerase gid s.games) = some g' := hg'
          rw [alookup_aerase_ne hid] at h2
          exact hs gid' g' h2
      · have hclf : g.closed = false := by
          cases hcg : g.closed
          · rfl
          · exact absurd hcg hcl
        rcases hs gid g hlook with ⟨v, hcv, hlev⟩
        have hsafeg : safeGOps ({ id := gid, guard := g }, s.game_num_players)
            gops = true := by
          simpa [sessionSafeOp, lock_game_state, hlook, hclf] using h
        have hstep : step s (Op.gameSession gid gops) =
            { s with
              games := ainsert gid
                (gops.foldl applyGOp
                  ({ id := gid, guard := g }, s.game_num_players)).1.guard
                s.games,
              game_num_players :=
                (gops.foldl applyGOp
                  ({ id := gid, guard := g }, s.game_num_players)).2 } := by
          simp [step, game_session, lock_game_state, hlook, hclf]
        rcases session_fold_ge gops { id := gid, guard := g }
            s.game_num_players v hcv hlev hsafeg with ⟨_, hex, hframe⟩
        rw [hstep]
        intro gid' g' hg'
        by_cases hid : gid' = gid
        · subst hid
          have h2 : alookup gid' (ainsert gid'
              (gops.foldl applyGOp
                ({ id := gid', guard := g }, s.game_num_players)).1.guard
              s.games) = some g' := hg'
          rw [alookup_ainsert_self] at h2
          have hgeq : g' = (gops.foldl applyGOp
              ({ id := gid', guard := g }, s.game_num_players)).1.guard :=
            (Option.some.injEq _ _ ▸ h2).symm
          subst hgeq
          exact hex
        · have h2 : alookup gid' (ainsert gid
              (gops.foldl applyGOp
                ({ id := gid, guard := g }, s.game_num_players)).1.guard
              s.games) = some g' := hg'
          rw [alookup_ainsert_ne hid] at h2
          rcases hs gid' g' h2 with ⟨v', hcv', hlev'⟩
          refine ⟨v', ?_, hlev'⟩
          rw [show (({ s with
              games := ainsert gid
                (gops.foldl applyGOp
                  ({ id := gid, guard := g }, s.game_num_players)).1.guard
                s.games,
              game_num_players :=
                (gops.foldl applyGOp
                  ({ id := gid, guard := g }, s.game_num_players)).2 } :
              StorageState)).game_num_players
              = (gops.foldl applyGOp
                  ({ id := gid, guard := g }, s.game_num_players)).2 from rfl,
            hframe gid' hid]
          exact hcv'
  | playerSession pid pops =>
    have hgames : (step s (Op.playerSession pid pops)).games = s.games := by
      simp only [step, player_session, lock_player_state]
      rcases alookup pid s.players with _ | st <;> rfl
    have hcnt : (step s (Op.playerSession pid pops)).game_num_players
        = s.game_num_players := by
      simp only [step, player_session, lock_player_state]
      rcases alookup pid s.players with _ | st <;> rfl
    intro gid g hg
    rw [hgames] at hg
    rw [hcnt]
    exact hs gid g hg

theorem ge_run (ops : List Op) :
    ∀ s, CountGeLen s → sessionSafeOps s ops = true →
      CountGeLen (run s ops) := by
  induction ops with
  | nil => intro s hs _; simpa [run] using hs
  | cons op rest ih =>
    intro s hs hsafe
    simp only [sessionSafeOps, Bool.and_eq_true] at hsafe
    rcases hsafe with ⟨hhead, htail⟩
    have heq : run s (op :: rest) = run (step s op) rest := by
      simp [run]
    rw [heq]
    exact ih (step s op) (ge_step s op hs hhead) htail

/-- C1 (counterexample): the claim fails as stated.  Starting from an empty
store, `register_game(1, [2])` followed by `remove_member(3)` through game
1's lease guard (player 3 is absent) leaves the members list `[2]` of
length 1, yet the cached count read by `read_count` is 0: the unconditional
decrement of `remove_player` desynchronizes the cache. -/
theorem c1_counterexample :
    alookup 1 (run (StorageState.new [])
      [Op.register 1 [2], Op.gameSession 1 [GOp.remove 3]]).games
      = some (GameState.new [2]) ∧
    read_count (run (StorageState.new [])
      [Op.register 1 [2], Op.gameSession 1 [GOp.remove 3]]) 1 = some 0 ∧
    ¬ read_count (run (StorageState.new [])
      [Op.register 1 [2], Op.gameSession 1 [GOp.remove 3]]) 1
      = some (GameState.new [2]).players.length := by
  decide

/-- C1 (amended): for every game id present in the store, after any safe
sequence of `add_member`/`remove_member` calls through lease guards — one
in which every remove targets a player currently in that game's members
list and every registered or seeded member list is duplicate-free — the
cached count read by `read_count` (the per-entry read of
`snapshot_counts`) equals the length of the game's members list. -/
theorem read_count_eq_members_length_of_safe (seed : List GameStateFromDb)
    (ops : List Op) (hseed : seedOk seed = true)
    (hops : safeOps (StorageState.new seed) ops = true)
    (gid : Int) (g : GameState)
    (hg : alookup gid (run (StorageState.new seed) ops).games = some g) :
    read_count (run (StorageState.new seed) ops) gid
      = some g.players.length :=
  (inv_reachable seed ops hseed hops gid g hg).1

/-- C1 (witness): the amended theorem applied to the seed
`[{game 7, members [1,2]}]` and the session `add 3; remove 1` on game 7. -/
theorem read_count_eq_members_length_of_safe_witness :
    read_count (run (StorageState.new [{ id := 7, players := [1, 2] }])
      [Op.gameSession 7 [GOp.add 3, GOp.remove 1]]) 7
      = some (GameState.new [2, 3]).players.length :=
  read_count_eq_members_length_of_safe [{ id := 7, players := [1, 2] }]
    [Op.gameSession 7 [GOp.add 3, GOp.remove 1]] (by decide) (by decide)
    7 (GameState.new [2, 3]) (by decide)

/-- C2: `remove_player` retains away every occurrence of `p` (so it removes
`p` when present, and leaves the members list unchanged when `p` is
absent), and in both cases it performs the unsigned decrement of the
cached count entry (`usizeWrapSub1`, which equals `v - 1` for positive
`v`). -/
theorem remove_player_spec (l : LockedGameState) (cnt : CountTable)
    (pid : Int) (v : Nat) (hv : alookup l.id cnt = some v) :
    (l.remove_player cnt pid).1.guard.players
      = l.guard.players.filter (fun q => q != pid) ∧
    (l.remove_player cnt pid).1.id = l.id ∧
    (l.remove_player cnt pid).1.guard.closed = l.guard.closed ∧
    alookup l.id (l.remove_player cnt pid).2 = some (usizeWrapSub1 v) ∧
    (0 < v → usizeWrapSub1 v = v - 1) ∧
    (pid ∉ l.guard.players →
      (l.remove_player cnt pid).1.guard.players = l.guard.players) ∧
    (pid ∈ l.guard.players →
      pid ∉ (l.remove_player cnt pid).1.guard.players) := by
  refine ⟨rfl, rfl, rfl, ?_, ?_, ?_, ?_⟩
  · show alookup l.id (amodify l.id usizeWrapSub1 cnt) = some (usizeWrapSub1 v)
    rw [alookup_amodify_self, hv]
    rfl
  · intro hvpos
    have : v ≠ 0 := by omega
    simp [usizeWrapSub1, this]
  · intro habs
    exact filter_ne_of_not_mem _ _ habs
  · intro _
    exact not_mem_filter_ne _ _

/-- C2 (witness): removing the absent player 3 from a game with members
`[2]` and cached count 1 leaves the members unchanged and decrements the
count entry. -/
theorem remove_player_spec_witness :
    alookup 1 (LockedGameState.remove_player
      { id := 1, guard := GameState.new [2] } [(1, 1)] 3).2
      = some (usizeWrapSub1 1) ∧
    (LockedGameState.remove_player
      { id := 1, guard := GameState.new [2] } [(1, 1)] 3).1.guard.players
      = [2] := by
  have h := remove_player_spec { id := 1, guard := GameState.new [2] }
    [(1, 1)] 3 1 (by decide)
  exact ⟨h.2.2.2.1, h.2.2.2.2.2.1 (by decide)⟩

/-- C3 (counterexample): the claim fails as stated.  After
`register_game(7, [1])`, `mark_closed()` on game 7, and the next
`lease_game(7)` (which purges the games-table entry and reports not
found), the cached-count entry for 7 is still present: `read_count 7`
still returns `some 1` and `snapshot_counts` still fills in 1, so game 7
does appear in the listing's backing index. -/
theorem c3_counterexample :
    alookup 7 (run (StorageState.new []) [Op.register 7 [1],
      Op.gameSession 7 [GOp.close], Op.gameSession 7 []]).games = none ∧
    read_count (run (StorageState.new []) [Op.register 7 [1],
      Op.gameSession 7 [GOp.close], Op.gameSession 7 []]) 7 = some 1 ∧
    fetch_num_players (run (StorageState.new []) [Op.register 7 [1],
      Op.gameSession 7 [GOp.close], Op.gameSession 7 []])
      [{ id := 7, num_players := 0 }] = [{ id := 7, num_players := 1 }] ∧
    ¬ read_count (run (StorageState.new []) [Op.register 7 [1],
      Op.gameSession 7 [GOp.close], Op.gameSession 7 []]) 7 = none := by
  decide

/-- C3 (amended): after `mark_closed()` on a game G present in the store
and release of its guard, the next `lease_game(G)` returns not found and
removes G's entry from the games table; the cached-count entry, however,
is not purged — `game_num_players` is left exactly as it was, so
`snapshot_counts` still reports a (stale) count for G. -/
theorem lease_after_close_spec (s : StorageState) (gid : Int)
    (g : GameState) (hg : alookup gid s.games = some g)
    (hopen : g.closed = false) :
    (lock_game_state (game_session s gid [GOp.close]) gid).2 = none ∧
    alookup gid
      (lock_game_state (game_session s gid [GOp.close]) gid).1.games = none ∧
    (lock_game_state (game_session s gid [GOp.close]) gid).1.game_num_players
      = s.game_num_players := by
  have hsess : game_session s gid [GOp.close]
      = { s with games := ainsert gid { g with closed := true } s.games } := by
    simp [game_session, lock_game_state, hg, hopen, applyGOp,
      LockedGameState.close]
  rw [hsess]
  have hlook : alookup gid
      (ainsert gid { g with closed := true } s.games)
      = some { g with closed := true } :=
    alookup_ainsert_self _ _ _
  have hmatch : lock_game_state
      ({ s with games := ainsert gid { g with closed := true } s.games } :
        StorageState) gid
      = ({ s with games :=
            aerase gid (ainsert gid { g with closed := true } s.games) },
         none) := by
    simp [lock_game_state, hlook]
  rw [hmatch]
  exact ⟨rfl, alookup_aerase_self _ _, rfl⟩

/-- C3 (witness): the amended theorem applied to the store seeded with
game 7 and member `[1]`. -/
theorem lease_after_close_spec_witness :
    (lock_game_state (game_session
      (StorageState.new [{ id := 7, players := [1] }]) 7 [GOp.close]) 7).2
      = none ∧
    alookup 7 (lock_game_state (game_session
      (StorageState.new [{ id := 7, players := [1] }]) 7 [GOp.close]) 7).1.games
      = none ∧
    (lock_game_state (game_session
      (StorageState.new [{ id := 7, players := [1] }]) 7
        [GOp.close]) 7).1.game_num_players
      = (StorageState.new [{ id := 7, players := [1] }]).game_num_players :=
  lease_after_close_spec (StorageState.new [{ id := 7, players := [1] }])
    7 (GameState.new [1]) (by decide) (by decide)

/-- C4 (counterexample): the claim fails as stated.  `register_game`
copies duplicate input lists verbatim, so after `register_game(1, [5,5])`
the guard's members list contains 5 twice; calling `add_member(5)` twice
in a row is a double no-op and leaves `members()` containing 5 twice, not
exactly once. -/
theorem c4_counterexample :
    (alookup 1 (run (StorageState.new []) [Op.register 1 [5, 5],
      Op.gameSession 1 [GOp.add 5, GOp.add 5]]).games).map
        (fun g => g.players.count 5) = some 2 ∧
    ¬ (alookup 1 (run (StorageState.new []) [Op.register 1 [5, 5],
      Op.gameSession 1 [GOp.add 5, GOp.add 5]]).games).map
        (fun g => g.players.count 5) = some 1 := by
  decide

/-- C4 (amended): `add_player` is idempotent — if `p` is already in the
members list it changes neither the guard nor the count table; otherwise
it appends `p` to the end and applies the wrapping unsigned increment to
the existing cached-count entry, which equals `v + 1` whenever that does
not overflow.  A second immediate `add_player(p)` is always a no-op, and
the double call leaves `members()` containing `p` exactly once provided
`p` occurred at most once beforehand (as in every state satisfying the
no-duplicates invariant). -/
theorem add_player_spec (l : LockedGameState) (cnt : CountTable)
    (pid : Int) :
    (pid ∈ l.guard.players → l.add_player cnt pid = (l, cnt)) ∧
    (pid ∉ l.guard.players →
      (l.add_player cnt pid).1.guard.players = l.guard.players ++ [pid] ∧
      (l.add_player cnt pid).1.id = l.id ∧
      (∀ v, alookup l.id cnt = some v →
        alookup l.id (l.add_player cnt pid).2 = some (usizeWrapAdd1 v) ∧
        (v + 1 < USIZE → usizeWrapAdd1 v = v + 1))) ∧
    ((l.add_player cnt pid).1.add_player (l.add_player cnt pid).2 pid
      = l.add_player cnt pid) ∧
    (l.guard.players.count pid ≤ 1 →
      ((l.add_player cnt pid).1.add_player
        (l.add_player cnt pid).2 pid).1.guard.players.count pid = 1) := by
  by_cases hmem : pid ∈ l.guard.players
  · have hfst : l.add_player cnt pid = (l, cnt) := by
      simp [LockedGameState.add_player, hmem]
    refine ⟨fun _ => hfst, fun habs => absurd hmem habs, ?_, ?_⟩
    · rw [hfst]
      exact hfst
    · intro hle
      have hpos : 0 < l.guard.players.count pid :=
        List.count_pos_iff.mpr hmem
      have hcount : l.guard.players.count pid = 1 := by omega
      simp [hfst, hcount]
  · have hfst : l.add_player cnt pid =
        ({ l with guard :=
            { l.guard with players := l.guard.players ++ [pid] } },
         amodify l.id usizeWrapAdd1 cnt) := by
      simp [LockedGameState.add_player, hmem]
    have hmem2 : pid ∈ l.guard.players ++ [pid] := by
      simp
    have hsnd : LockedGameState.add_player
        { l with guard := { l.guard with players := l.guard.players ++ [pid] } }
        (amodify l.id usizeWrapAdd1 cnt) pid
        = ({ l with guard :=
              { l.guard with players := l.guard.players ++ [pid] } },
           amodify l.id usizeWrapAdd1 cnt) := by
      simp [LockedGameState.add_player, hmem2]
    refine ⟨fun hm => absurd hm hmem, fun _ => ⟨by rw [hfst], by rw [hfst],
      fun v hv => ⟨?_, fun hb => by simp [usizeWrapAdd1, Nat.mod_eq_of_lt hb]⟩⟩,
      ?_, ?_⟩
    · rw [hfst]
      show alookup l.id (amodify l.id usizeWrapAdd1 cnt)
        = some (usizeWrapAdd1 v)
      rw [alookup_amodify_self, hv]
      rfl
    · rw [hfst]
      exact hsnd
    · intro _
      rw [hfst]
      have : (LockedGameState.add_player
          { l with guard :=
            { l.guard with players := l.guard.players ++ [pid] } }
          (amodify l.id usizeWrapAdd1 cnt) pid).1.guard.players
          = l.guard.players ++ [pid] := by
        rw [hsnd]
      rw [this, List.count_append,
        List.count_eq_zero_of_not_mem hmem]
      simp

/-- C4 (witness): the amended theorem applied to a guard on game 1 with
members `[2]`, count table `[(1, 1)]`, and player 3. -/
theorem add_player_spec_witness :
    (LockedGameState.add_player { id := 1, guard := GameState.new [2] }
      [(1, 1)] 3).1.guard.players = [2] ++ [3] ∧
    ((LockedGameState.add_player { id := 1, guard := GameState.new [2] }
      [(1, 1)] 3).1.add_player
      (LockedGameState.add_player { id := 1, guard := GameState.new [2] }
        [(1, 1)] 3).2 3).1.guard.players.count 3 = 1 := by
  have h := add_player_spec { id := 1, guard := GameState.new [2] }
    [(1, 1)] 3
  exact ⟨(h.2.1 (by decide)).1, h.2.2.2 (by decide)⟩

/-- C5 (counterexample): the claim fails as stated.  `register_game`
copies its input slice without deduplication, so registering game 1 with
the repeat-containing list `[5,5]` produces a members list with a
duplicate in the store. -/
theorem c5_counterexample :
    alookup 1 (run (StorageState.new []) [Op.register 1 [5, 5]]).games
      = some (GameState.new [5, 5]) ∧
    ¬ (GameState.new [5, 5]).players.Nodup := by
  decide

/-- C5 (amended): in every state reached from duplicate-free seed member
lists by a trace whose `register_game` inputs are duplicate-free, every
game's members list contains no duplicate player ids: the invariant is
established by bulk initialization and `register_game` for such inputs
and preserved unconditionally by `add_player` and `remove_player`
(including removes of absent players). -/
theorem members_nodup_of_nodup_inputs (seed : List GameStateFromDb)
    (ops : List Op) (hseed : seedOk seed = true)
    (hops : nodupInputs ops = true)
    (gid : Int) (g : GameState)
    (hg : alookup gid (run (StorageState.new seed) ops).games = some g) :
    g.players.Nodup := by
  have hinit : NodupGames (StorageState.new seed) := by
    intro gid' g' hg'
    exact (inv_seed_fold seed
      { players := [], games := [], game_num_players := [] }
      (fun gid2 g2 h2 => by simp [alookup] at h2) hseed gid' g' hg').2
  exact nodup_run ops (StorageState.new seed) hinit hops gid g hg

/-- C5 (witness): the amended theorem applied to the seed
`[{game 7, members [1,2]}]` and a session adding 3 and removing the
absent player 9 (no presence condition on removes is required). -/
theorem members_nodup_of_nodup_inputs_witness :
    (GameState.new [1, 2, 3]).players.Nodup :=
  members_nodup_of_nodup_inputs [{ id := 7, players := [1, 2] }]
    [Op.gameSession 7 [GOp.add 3, GOp.remove 9]] (by decide) (by decide)
    7 (GameState.new [1, 2, 3]) (by decide)

/-- C6: `register_game(id, members)` unconditionally installs a fresh
record with exactly the given members and `closed = false`, and sets the
cached count to `members.len()`, replacing any prior record for the same
id; in particular `register_game(7, [1,2])` then `register_game(7, [3])`
yields `read_count(7) = 1` and `has_member(7, 1) = false`. -/
theorem register_game_spec :
    (∀ (s : StorageState) (id : Int) (ps : List Int),
      alookup id (register_game s id ps).games = some (GameState.new ps) ∧
      alookup id (register_game s id ps).game_num_players = some ps.length) ∧
    read_count (run (StorageState.new [])
      [Op.register 7 [1, 2], Op.register 7 [3]]) 7 = some 1 ∧
    (alookup 7 (run (StorageState.new [])
        [Op.register 7 [1, 2], Op.register 7 [3]]).games).map
      (fun g => LockedGameState.has_player { id := 7, guard := g } 1)
      = some false := by
  refine ⟨fun s id ps => ⟨alookup_ainsert_self _ _ _,
    alookup_ainsert_self _ _ _⟩, by decide, by decide⟩

/-- C7 (counterexample): the claim fails as stated.  With the seed
`[{game 1, members [5]}, {game 2, members [5]}]`, where player 5 is
listed by both rows, the second row's insertion overwrites the first, so
`lease_player(5)` reports `joined_game = some 2` and not `some 1` even
though `(1, [5])` is a seeded pair listing 5. -/
theorem c7_counterexample :
    (lock_player_state (StorageState.new
      [{ id := 1, players := [5] }, { id := 2, players := [5] }]) 5).2.game_id
      = some 2 ∧
    ¬ (lock_player_state (StorageState.new
      [{ id := 1, players := [5] }, { id := 2, players := [5] }]) 5).2.game_id
      = some 1 := by
  decide

/-- C7 (amended): for seed data whose game ids are distinct and whose
member lists are pairwise disjoint (no player listed by two rows), bulk
initialization creates every listed member's player record pre-attached
to its row's game, and sets each row's cached count to its member list's
length; in particular seeding `[{game 7, members [1,2]}]` gives both
players `joined_game = some 7` and `read_count 7 = some 2`. -/
theorem seeded_attach_spec (data : List GameStateFromDb)
    (hid : nodupB (data.map GameStateFromDb.id) = true)
    (hdisj : pairwiseDisjointB data = true)
    (item : GameStateFromDb) (hitem : item ∈ data)
    (pid : Int) (hpid : pid ∈ item.players) :
    LockedPlayerState.joined_game_id
      { id := pid, guard := (lock_player_state (StorageState.new data) pid).2 }
      = some item.id ∧
    read_count (StorageState.new data) item.id
      = some item.players.length := by
  rcases seed_fold_attach data
      { players := [], games := [], game_num_players := [] }
      hid hdisj item hitem pid hpid with ⟨hp, hc⟩
  constructor
  · show (lock_player_state (StorageState.new data) pid).2.game_id
      = some item.id
    have : lock_player_state (StorageState.new data) pid
        = (StorageState.new data,
           { game_id := some item.id, sender := none }) := by
      simp [lock_player_state, StorageState.new, hp]
    rw [this]
  · exact hc

/-- C7 (witness): the amended theorem applied to the seed
`[{game 7, members [1,2]}]` and player 1. -/
theorem seeded_attach_spec_witness :
    LockedPlayerState.joined_game_id
      { id := 1,
        guard := (lock_player_state
          (StorageState.new [{ id := 7, players := [1, 2] }]) 1).2 }
      = some 7 ∧
    read_count (StorageState.new [{ id := 7, players := [1, 2] }]) 7
      = some 2 :=
  seeded_attach_spec [{ id := 7, players := [1, 2] }] (by decide) (by decide)
    { id := 7, players := [1, 2] } (by decide) 1 (by decide)

/-- C8: `lock_player_state` never fails: for every player id it returns a
guard whose record is the one stored under that id; if no record existed
it creates and returns the default record (no current game, no notifier),
and if one existed it returns exactly that record with the store
untouched. -/
theorem lock_player_state_spec (s : StorageState) (id : Int) :
    alookup id (lock_player_state s id).1.players
      = some (lock_player_state s id).2 ∧
    (alookup id s.players = none →
      (lock_player_state s id).2 = PlayerState.default ∧
      (lock_player_state s id).2.game_id = none ∧
      (lock_player_state s id).2.sender = none) ∧
    (∀ st, alookup id s.players = some st →
      lock_player_state s id = (s, st)) := by
  rcases hlook : alookup id s.players with _ | st
  · have heq : lock_player_state s id
        = ({ s with players := ainsert id PlayerState.default s.players },
           PlayerState.default) := by
      simp [lock_player_state, hlook]
    rw [heq]
    exact ⟨alookup_ainsert_self _ _ _, fun _ => ⟨rfl, rfl, rfl⟩,
      fun st hst => Option.noConfusion hst⟩
  · have heq : lock_player_state s id = (s, st) := by
      simp [lock_player_state, hlook]
    rw [heq]
    refine ⟨hlook, fun hn => Option.noConfusion hn, fun st2 hst => ?_⟩
    rw [Option.some.injEq] at hst
    rw [hst]

/-- C8 (witness): looking up player 9 in the empty store creates and
returns the default record. -/
theorem lock_player_state_spec_witness :
    (lock_player_state { players := [], games := [], game_num_players := [] }
      9).2 = PlayerState.default :=
  ((lock_player_state_spec
    { players := [], games := [], game_num_players := [] } 9).2.1
    (by decide)).1

/-- C9 (counterexample): the claim fails as stated.  After
`register_game(1, [])` the store is reachable, game 1 is leasable
(`lock_game_state` returns its guard), and its cached-count entry is 0 —
not strictly positive — so `remove_member` is invocable there and its
unsigned decrement underflows: removing the absent player 5 wraps the
cached count to `2^64 - 1`. -/
theorem c9_counterexample :
    (lock_game_state (run (StorageState.new []) [Op.register 1 []]) 1).2
      = some (GameState.new []) ∧
    read_count (run (StorageState.new []) [Op.register 1 []]) 1 = some 0 ∧
    ¬ 0 < (0 : Nat) ∧
    read_count (run (StorageState.new [])
      [Op.register 1 [], Op.gameSession 1 [GOp.remove 5]]) 1
      = some 18446744073709551615 := by
  decide

/-- C9 (amended): in every state reached from arbitrary seed data —
duplicates allowed — by a trace whose removes all target players present
at call time (and whose count increments do not overflow, true of every
program-representable count), whenever `remove_member` is invoked on a
present player of a game whose id has a cached-count entry, that count is
strictly positive, so the unsigned decrement does not underflow.  (The
unrestricted claim is false: removes of absent players reach a zero
count, see the counterexample.) -/
theorem remove_count_pos_of_present_removes (seed : List GameStateFromDb)
    (ops : List Op)
    (hops : sessionSafeOps (StorageState.new seed) ops = true)
    (gid : Int) (g : GameState) (pid : Int) (v : Nat)
    (hg : alookup gid (run (StorageState.new seed) ops).games = some g)
    (hpid : pid ∈ g.players)
    (hv : read_count (run (StorageState.new seed) ops) gid = some v) :
    0 < v := by
  have hinit : CountGeLen (StorageState.new seed) :=
    ge_seed_fold seed { players := [], games := [], game_num_players := [] }
      (fun gid2 g2 h2 => by simp [alookup] at h2)
  rcases ge_run ops (StorageState.new seed) hinit hops gid g hg with
    ⟨v2, hc2, hle2⟩
  have hveq : v = v2 := by
    rw [show read_count (run (StorageState.new seed) ops) gid
      = alookup gid (run (StorageState.new seed) ops).game_num_players
      from rfl, hc2] at hv
    exact Option.some.injEq _ _ ▸ hv.symm
  have hlenpos : 0 < g.players.length :=
    List.length_pos.mpr (List.ne_nil_of_mem hpid)
  omega

/-- C9 (witness): the amended theorem applied to a seed listing player 1
twice for game 7 (duplicate-free inputs are not required) and the empty
trace; player 1 is present and the count is 2. -/
theorem remove_count_pos_of_present_removes_witness : 0 < (2 : Nat) :=
  remove_count_pos_of_present_removes [{ id := 7, players := [1, 1] }] []
    (by decide) 7 { players := [1, 1], closed := false } 1 2 (by decide)
    (by decide) (by decide)

/-- C10: `register_game(id, members)` only touches the game table and the
cached-count entry for `id`: the player table is returned unchanged (no
listed member's `current_game` is set, unlike bulk initialization), and
every other game's record and cached count are unchanged. -/
theorem register_game_frame (s : StorageState) (id : Int) (ps : List Int) :
    (register_game s id ps).players = s.players ∧
    ∀ gid, gid ≠ id →
      alookup gid (register_game s id ps).games = alookup gid s.games ∧
      alookup gid (register_game s id ps).game_num_players
        = alookup gid s.game_num_players :=
  ⟨rfl, fun _ hgid => ⟨alookup_ainsert_ne hgid _ _,
    alookup_ainsert_ne hgid _ _⟩⟩

/-- C10 (witness): registering game 2 over a store seeded with game 1
leaves game 1's record, count, and the player table unchanged. -/
theorem register_game_frame_witness :
    (register_game (StorageState.new [{ id := 1, players := [4] }])
      2 [9]).players
      = (StorageState.new [{ id := 1, players := [4] }]).players ∧
    alookup 1 (register_game (StorageState.new [{ id := 1, players := [4] }])
      2 [9]).games
      = alookup 1 (StorageState.new [{ id := 1, players := [4] }]).games := by
  have h := register_game_frame (StorageState.new
    [{ id := 1, players := [4] }]) 2 [9]
  exact ⟨h.1, (h.2 1 (by decide)).1⟩

end Flo
